import Mathlib

/-!
Shallow embedding of `src/optimizers/pso.py` (class `pso`), a particle swarm
optimizer hybridized with an optional gradient-descent correction.

Modelling conventions:
* Machine floats become exact rationals (`ℚ`).
* A `[pop_size, dim]` tensor is a function `ℕ → ℕ → ℚ` (row, column); the
  `[pop_size, 1]` fitness column is a function `ℕ → ℚ`.  All tensor
  operations in the source are elementwise / broadcasting, so the embedding
  defines them pointwise; claims quantify over indices below `pop_size`/`dim`
  where shape matters.
* The external collaborators (`utils.build_NN`, `utils.decode`, the loss
  closure `loss_op`, `utils.flat_grad`) are out of scope per the spec; the
  composite per-particle map `individual_fn` (decode, evaluate the loss,
  flatten the gradient) is therefore a parameter `obj : Vec → ℚ × Vec`
  sending one particle row to its scalar loss and flat gradient.
* Randomness: `numpy.random.uniform(0, 1, sz)` is modelled as consuming a
  stream `u : ℕ → ℚ` of unit-interval samples in C order, and
  `tf.random.uniform(shape, lo, hi)` as the affine transform
  `lo + u * (hi - lo)` of a unit sample, one per entry.
* `tf.math.argmin` is modelled with numpy/TF CPU semantics: the first index
  attaining the minimal value along axis 0.
* Console progress reporting (`utils.progress`) has no effect on the
  optimizer state and is not modelled.
-/

namespace OPTBINN

/-- A flat vector (one particle row, a fitness column, one random row). -/
abbrev Vec := ℕ → ℚ

/-- A `[pop_size, dim]` matrix: swarm positions, velocities, gradients. -/
abbrev Mat := ℕ → ℕ → ℚ

/-- The per-particle objective: `individual_fn` in the source, i.e. the
composition decode → `loss_op` → `flat_grad`, returning the scalar loss and
the flattened gradient of one particle. External collaborator. -/
abbrev Obj := Vec → ℚ × Vec

/-- The scalar hyperparameters of `pso.__init__`.  `loss_op`, `layer_sizes`
and `initialization_method` are external collaborators and enter the model
as the `obj` and initial-swarm parameters instead; `dim` is
`utils.dimensions(layer_sizes)`. -/
structure PsoConfig where
  pop_size : ℕ
  dim : ℕ
  n_iter : ℕ
  b : ℚ
  c1 : ℚ
  c2 : ℚ
  x_min : ℚ
  x_max : ℚ
  gd_alpha : ℚ
  cold_start : Bool

/-- The mutable attributes of a `pso` instance that the optimizer evolves. -/
structure PsoState where
  x : Mat
  v : Mat
  p : Mat
  f_p : Vec
  g : Vec
  grads : Mat
  loss_history : List ℚ

/-- Embeds `pso.fitness_fn`: vectorized map of `individual_fn` over the particle
rows, returning the `[pop,1]` losses and the `[pop,dim]` gradients. -/
def fitness_fn (obj : Obj) (x : Mat) : Vec × Mat :=
  (fun i => (obj (x i)).1, fun i j => (obj (x i)).2 j)

/-- Embeds `tf.reduce_mean` over the `[pop,1]` fitness column. -/
def meanQ (pop : ℕ) (f : Vec) : ℚ :=
  (∑ i ∈ Finset.range pop, f i) / pop

/-- Forward scan of `argmin`: `best` is the best index seen so far, `cur`
the next index to examine, and the last argument the number of indices left
to examine.  A new index replaces `best` only when strictly smaller, so the
first minimal index wins. -/
def argminGo (f : Vec) : ℕ → ℕ → ℕ → ℕ
  | best, _, 0 => best
  | best, cur, k+1 => argminGo f (if f cur < f best then cur else best) (cur + 1) k

/-- Embeds `tf.math.argmin(f)[0]` on a `[pop,1]` column: the first index in
`0, …, pop-1` attaining the minimal value.  Total where the TF op is not:
at `pop = 0` it returns index 0, whereas `tf.math.argmin` raises an
`InvalidArgumentError` on an empty reduction axis; theorems about the
argmin therefore carry a `0 < pop_size` hypothesis. -/
def argminQ (f : Vec) (pop : ℕ) : ℕ :=
  argminGo f 0 1 (pop - 1)

/-- Embeds `pso.start_velocities`: zero on cold start, otherwise
`tf.random.uniform([pop,dim], -x_max - x_min, x_max - x_min)`, one unit
sample `uv i j` per entry. -/
def start_velocities (cfg : PsoConfig) (uv : ℕ → ℕ → ℚ) : Mat :=
  if cfg.cold_start then fun _ _ => 0
  else fun i j =>
    (-cfg.x_max - cfg.x_min) + uv i j * ((cfg.x_max - cfg.x_min) - (-cfg.x_max - cfg.x_min))

/-- Embeds `pso.get_randoms`: `uniform(0, 1, [2, dim])[:, None]` unpacked as
`r1, r2`.  The `[2, dim]` array is filled from the unit stream in C order,
so `r1` is the first `dim` samples and `r2` the next `dim`; each has shape
`[1, dim]`, i.e. one value per dimension, broadcast over particles. -/
def get_randoms (dim : ℕ) (u : ℕ → ℚ) : Vec × Vec :=
  (fun j => u j, fun j => u (dim + j))

/-- Embeds `pso.__init__` after the hyperparameter assignments: build the swarm
(`x0`, external), set `p := x`, empty loss history, one fitness evaluation
to populate `f_p` and `grads`, `g := p[argmin f_p]`, starting velocities
from the unit samples `uv`.  The constructor performs no hyperparameter
validation; its only failure mode in the source is `tf.math.argmin`
raising on the empty `f_p` when `pop_size = 0`, a path this model
totalizes through `argminQ` (hence statements about construction assume
`0 < pop_size`). -/
def pso_init (cfg : PsoConfig) (x0 : Mat) (obj : Obj) (uv : ℕ → ℕ → ℚ) : PsoState :=
  { x := x0
    p := x0
    f_p := (fitness_fn obj x0).1
    grads := (fitness_fn obj x0).2
    g := fun j => x0 (argminQ (fitness_fn obj x0).1 cfg.pop_size) j
    v := start_velocities cfg uv
    loss_history := [] }

/-- Embeds `pso.update_p_best`: re-evaluate fitness at the current positions,
cache the fresh gradients, append the mean fitness to the loss history, and
fold the fresh fitnesses into the personal bests with a strict comparison
(`tf.where(f_x < f_p, …)`), both `tf.where` calls reading the old `f_p`. -/
def update_p_best (cfg : PsoConfig) (obj : Obj) (s : PsoState) : PsoState :=
  { s with
    grads := (fitness_fn obj s.x).2
    loss_history := s.loss_history ++ [meanQ cfg.pop_size (fitness_fn obj s.x).1]
    p := fun i j => if (fitness_fn obj s.x).1 i < s.f_p i then s.x i j else s.p i j
    f_p := fun i => if (fitness_fn obj s.x).1 i < s.f_p i then (fitness_fn obj s.x).1 i else s.f_p i }

/-- Embeds `pso.update_g_best`: `g := p[argmin f_p]`. -/
def update_g_best (cfg : PsoConfig) (s : PsoState) : PsoState :=
  { s with g := fun j => s.p (argminQ s.f_p cfg.pop_size) j }

/-- The new velocity of `pso.step`:
`b*v + c1*r1*(p - x) + c2*r2*(g - x) - gd_alpha*grads`, with `r1, r2` of
shape `[1, dim]` and `g` of shape `[dim]` broadcast over particles. -/
def step_velocity (cfg : PsoConfig) (s : PsoState) (r1 r2 : Vec) : Mat :=
  fun i j =>
    cfg.b * s.v i j + cfg.c1 * r1 j * (s.p i j - s.x i j)
      + cfg.c2 * r2 j * (s.g j - s.x i j) - cfg.gd_alpha * s.grads i j

/-- Embeds `pso.step`: draw `r1, r2` from the unit stream `u`, update velocity and
position, then `update_p_best` and `update_g_best`. -/
def step (cfg : PsoConfig) (obj : Obj) (u : ℕ → ℚ) (s : PsoState) : PsoState :=
  let r := get_randoms cfg.dim u
  let v := step_velocity cfg s r.1 r.2
  let x := fun i j => s.x i j + v i j
  update_g_best cfg (update_p_best cfg obj { s with v := v, x := x })

/-- The loop of `pso.train`: the first argument is the number of iterations
left, the second the index of the current iteration (feeding each
iteration's fresh random draws `us t`).  The verbose progress printout has
no effect on the state and is not modelled. -/
def trainAux (cfg : PsoConfig) (obj : Obj) (us : ℕ → ℕ → ℚ) : ℕ → ℕ → PsoState → PsoState
  | 0, _, s => s
  | k+1, t, s => trainAux cfg obj us k (t + 1) (step cfg obj (us t) s)

/-- Embeds `pso.train`: run `n_iter` steps; the state is the only result (the
Python method returns `None`). -/
def train (cfg : PsoConfig) (obj : Obj) (us : ℕ → ℕ → ℚ) (s : PsoState) : PsoState :=
  trainAux cfg obj us cfg.n_iter 0 s

/-- Modelled from the spec: the hyperparameter-validity predicate of the
spec's ConfigurationError taxonomy (`pop_size <= 0`, `n_iter <= 0`,
`x_min >= x_max` are the invalid cases).  The source constructor contains
no such check; this definition exists only to state claim C5. -/
def spec_configValid (cfg : PsoConfig) : Prop :=
  0 < cfg.pop_size ∧ 0 < cfg.n_iter ∧ cfg.x_min < cfg.x_max

/-! ### Concrete instances used by witnesses and counterexamples -/

/-- A small concrete configuration: 2 particles, 2 dimensions, 1 iteration,
pure PSO (`gd_alpha = 0`), cold start. -/
def cfgA : PsoConfig :=
  { pop_size := 2, dim := 2, n_iter := 1, b := 9/10, c1 := 4/5, c2 := 1/2,
    x_min := -1, x_max := 1, gd_alpha := 0, cold_start := true }

/-- A warm-start configuration with an asymmetric position range. -/
def cfgWarm : PsoConfig :=
  { cfgA with cold_start := false, x_min := -1/2, x_max := 1 }

/-- A configuration the spec calls invalid: `n_iter = 0` and
`x_min >= x_max`. -/
def cfgBad : PsoConfig :=
  { cfgA with n_iter := 0, x_min := 1, x_max := 0 }

/-- A concrete objective: the loss of a particle is its coordinate 0, the
gradient is identically zero. -/
def objA : Obj := fun row => (row 0, fun _ => 0)

/-- A concrete unit-interval sample stream: `uA n = 1 / (n + 2)`, a
strictly decreasing sequence in `(0, 1)`. -/
def uA : Vec := fun n => Rat.mk' 1 (n + 2) (by omega) (Nat.coprime_one_left _)

/-- Concrete per-iteration sample streams for `train`. -/
def usA : ℕ → ℕ → ℚ := fun _ => uA

/-- Concrete unit samples for `start_velocities`: constantly `3 / 10`. -/
def uvA : ℕ → ℕ → ℚ := fun _ _ => Rat.mk' 3 10 (by omega) (by norm_num)

/-- A concrete state whose particle 0 ties its personal best
(`f_x 0 = 0 = f_p 0`) and whose particle 1 strictly improves it
(`f_x 1 = 1 < 5 = f_p 1`) under `objA`. -/
def sA : PsoState :=
  { x := fun i _ => (i : ℚ)
    v := fun _ _ => 0
    p := fun i j => (i : ℚ) + (j : ℚ) + 2
    f_p := fun i => if i = 0 then 0 else 5
    g := fun _ => 1
    grads := fun _ _ => 1
    loss_history := [7] }

/-- A concrete state whose rows all agree, to exhibit that the random
coefficients are shared across particles. -/
def sB : PsoState :=
  { x := fun _ _ => 1
    v := fun _ _ => 2
    p := fun _ _ => 3
    f_p := fun _ => 4
    g := fun _ => 5
    grads := fun _ _ => 6
    loss_history := [] }

/-! ### Theorems -/

/-- C1: each `step` computes the new velocity as
`b*v + c1*r1*(p - x) + c2*r2*(g - x) - gd_alpha*grads` and the new position
as `x + v'`, elementwise, with `g` broadcast over particles, `r1, r2` the
draws of this step, and the `grads` term reading the gradients cached by
the previous fitness evaluation; the step then re-caches the gradients of
the fresh positions. -/
theorem step_update_equations (cfg : PsoConfig) (obj : Obj) (u : ℕ → ℚ)
    (s : PsoState) (i j : ℕ) :
    (step cfg obj u s).v i j =
      cfg.b * s.v i j
        + cfg.c1 * (get_randoms cfg.dim u).1 j * (s.p i j - s.x i j)
        + cfg.c2 * (get_randoms cfg.dim u).2 j * (s.g j - s.x i j)
        - cfg.gd_alpha * s.grads i j ∧
    (step cfg obj u s).x i j = s.x i j + (step cfg obj u s).v i j ∧
    (step cfg obj u s).grads i j = (fitness_fn obj (step cfg obj u s).x).2 i j := by
  refine ⟨rfl, rfl, rfl⟩

/-- One `update_p_best` never raises a personal-best fitness. -/
lemma update_p_best_f_p_le (cfg : PsoConfig) (obj : Obj) (s : PsoState) (i : ℕ) :
    (update_p_best cfg obj s).f_p i ≤ s.f_p i := by
  show (if (fitness_fn obj s.x).1 i < s.f_p i then (fitness_fn obj s.x).1 i else s.f_p i) ≤ _
  by_cases hc : (fitness_fn obj s.x).1 i < s.f_p i
  · rw [if_pos hc]; exact hc.le
  · rw [if_neg hc]

/-- One `step` never raises a personal-best fitness. -/
lemma step_f_p_le (cfg : PsoConfig) (obj : Obj) (u : ℕ → ℚ) (s : PsoState) (i : ℕ) :
    (step cfg obj u s).f_p i ≤ s.f_p i := by
  let r := get_randoms cfg.dim u
  let v := step_velocity cfg s r.1 r.2
  exact update_p_best_f_p_le cfg obj
    { s with v := v, x := fun i j => s.x i j + v i j } i

/-- Across any run of the training loop, no personal-best fitness rises. -/
lemma trainAux_f_p_le (cfg : PsoConfig) (obj : Obj) (us : ℕ → ℕ → ℚ) :
    ∀ (k t : ℕ) (s : PsoState) (i : ℕ),
      (trainAux cfg obj us k t s).f_p i ≤ s.f_p i := by
  intro k
  induction k with
  | zero => intro t s i; exact le_refl _
  | succ k ih =>
    intro t s i
    exact le_trans (ih (t + 1) (step cfg obj (us t) s) i) (step_f_p_le cfg obj (us t) s i)

/-- C2: the personal-best fitness of every particle is non-increasing,
both across one `step` and across any run of the training loop; the update
replaces `p[i]` and `f_p[i]` exactly when `f_x[i] < f_p[i]` holds strictly,
so on ties the existing personal best is kept. -/
theorem personal_best_never_worsens (cfg : PsoConfig) (obj : Obj) (u : ℕ → ℚ)
    (us : ℕ → ℕ → ℚ) (s : PsoState) :
    (∀ i, (step cfg obj u s).f_p i ≤ s.f_p i) ∧
    (∀ k t i, (trainAux cfg obj us k t s).f_p i ≤ s.f_p i) ∧
    (∀ i, (fitness_fn obj s.x).1 i < s.f_p i →
      (update_p_best cfg obj s).p i = s.x i ∧
      (update_p_best cfg obj s).f_p i = (fitness_fn obj s.x).1 i) ∧
    (∀ i, ¬ (fitness_fn obj s.x).1 i < s.f_p i →
      (update_p_best cfg obj s).p i = s.p i ∧
      (update_p_best cfg obj s).f_p i = s.f_p i) := by
  refine ⟨fun i => step_f_p_le cfg obj u s i,
    fun k t i => trainAux_f_p_le cfg obj us k t s i, fun i hi => ?_, fun i hi => ?_⟩
  · constructor
    · funext j
      show (if (fitness_fn obj s.x).1 i < s.f_p i then s.x i j else s.p i j) = s.x i j
      rw [if_pos hi]
    · show (if (fitness_fn obj s.x).1 i < s.f_p i then (fitness_fn obj s.x).1 i else s.f_p i) = _
      rw [if_pos hi]
  · constructor
    · funext j
      show (if (fitness_fn obj s.x).1 i < s.f_p i then s.x i j else s.p i j) = s.p i j
      rw [if_neg hi]
    · show (if (fitness_fn obj s.x).1 i < s.f_p i then (fitness_fn obj s.x).1 i else s.f_p i) = _
      rw [if_neg hi]

/-- Witness for C2 at concrete inputs: particle 1 of `sA` strictly improves
and is replaced; particle 0 ties and is kept. -/
theorem personal_best_never_worsens_witness :
    (step cfgA objA uA sA).f_p 0 ≤ sA.f_p 0 ∧
    (trainAux cfgA objA usA 1 0 sA).f_p 0 ≤ sA.f_p 0 ∧
    ((update_p_best cfgA objA sA).p 1 = sA.x 1 ∧
      (update_p_best cfgA objA sA).f_p 1 = (fitness_fn objA sA.x).1 1) ∧
    ((update_p_best cfgA objA sA).p 0 = sA.p 0 ∧
      (update_p_best cfgA objA sA).f_p 0 = sA.f_p 0) :=
  ⟨(personal_best_never_worsens cfgA objA uA usA sA).1 0,
   (personal_best_never_worsens cfgA objA uA usA sA).2.1 1 0 0,
   (personal_best_never_worsens cfgA objA uA usA sA).2.2.1 1 (by decide),
   (personal_best_never_worsens cfgA objA uA usA sA).2.2.2 0 (by decide)⟩

/-- C8: with `gd_alpha = 0`, the velocity and position produced by `step`
do not depend on the cached gradients: replacing `grads` by anything else
(all other state equal, same random draws) yields identical `v` and `x`. -/
theorem gd_alpha_zero_ignores_grads (cfg : PsoConfig) (obj : Obj) (u : ℕ → ℚ)
    (s : PsoState) (grads2 : Mat) (h : cfg.gd_alpha = 0) :
    (step cfg obj u { s with grads := grads2 }).v = (step cfg obj u s).v ∧
    (step cfg obj u { s with grads := grads2 }).x = (step cfg obj u s).x := by
  have hv : ∀ i j, (step cfg obj u { s with grads := grads2 }).v i j
      = (step cfg obj u s).v i j := by
    intro i j
    show step_velocity cfg { s with grads := grads2 }
        (get_randoms cfg.dim u).1 (get_randoms cfg.dim u).2 i j
      = step_velocity cfg s (get_randoms cfg.dim u).1 (get_randoms cfg.dim u).2 i j
    simp [step_velocity, h]
  constructor
  · funext i j
    exact hv i j
  · funext i j
    show s.x i j + (step cfg obj u { s with grads := grads2 }).v i j
      = s.x i j + (step cfg obj u s).v i j
    rw [hv i j]

/-- Witness for C8 at the pure-PSO configuration `cfgA` (`gd_alpha = 0`),
replacing the cached gradients of `sB` by a nonzero constant matrix. -/
theorem gd_alpha_zero_ignores_grads_witness :
    (step cfgA objA uA { sB with grads := fun _ _ => 7 }).v = (step cfgA objA uA sB).v ∧
    (step cfgA objA uA { sB with grads := fun _ _ => 7 }).x = (step cfgA objA uA sB).x :=
  gd_alpha_zero_ignores_grads cfgA objA uA sB (fun _ _ => 7) rfl

/-- C9: after `update_p_best`, the new personal-best fitness of every
particle is the minimum of its old personal-best fitness and its fresh
fitness. -/
theorem p_best_fitness_is_min (cfg : PsoConfig) (obj : Obj) (s : PsoState) (i : ℕ) :
    (update_p_best cfg obj s).f_p i = min (s.f_p i) ((fitness_fn obj s.x).1 i) := by
  show (if (fitness_fn obj s.x).1 i < s.f_p i then (fitness_fn obj s.x).1 i else s.f_p i) = _
  by_cases hc : (fitness_fn obj s.x).1 i < s.f_p i
  · rw [if_pos hc, min_eq_right hc.le]
  · rw [if_neg hc, min_eq_left (le_of_not_lt hc)]

/-- C10: with `n_iter = 0`, `train` executes zero steps and leaves the
whole state (positions, velocities, bests, gradients, loss history)
unchanged. -/
theorem train_zero_iterations (cfg : PsoConfig) (obj : Obj) (us : ℕ → ℕ → ℚ)
    (s : PsoState) (h : cfg.n_iter = 0) :
    train cfg obj us s = s := by
  unfold train
  rw [h]
  rfl

/-- Witness for C10 at the concrete configuration `cfgBad` (`n_iter = 0`). -/
theorem train_zero_iterations_witness :
    train cfgBad objA usA sA = sA :=
  train_zero_iterations cfgBad objA usA sA rfl

/-- The forward argmin scan returns the first index with the minimal value:
assuming `best` is the first minimum of the indices below `cur`, the scan
over the next `k` indices returns the first minimum of the indices below
`cur + k`. -/
lemma argminGo_spec (f : Vec) (k : ℕ) :
    ∀ (best cur : ℕ), best < cur →
      (∀ j, j < cur → f best ≤ f j) →
      (∀ j, j < best → f best < f j) →
      argminGo f best cur k < cur + k ∧
      (∀ j, j < cur + k → f (argminGo f best cur k) ≤ f j) ∧
      (∀ j, j < argminGo f best cur k → f (argminGo f best cur k) < f j) := by
  induction k with
  | zero =>
    intro best cur hlt hmin hfirst
    simp only [argminGo, Nat.add_zero]
    exact ⟨hlt, fun j hj => hmin j hj, hfirst⟩
  | succ k ih =>
    intro best cur hlt hmin hfirst
    simp only [argminGo]
    by_cases hc : f cur < f best
    · rw [if_pos hc]
      have hmin2 : ∀ j, j < cur + 1 → f cur ≤ f j := by
        intro j hj
        rcases (Nat.lt_succ_iff.mp hj).lt_or_eq with h | h
        · exact le_of_lt (lt_of_lt_of_le hc (hmin j h))
        · rw [h]
      have hfirst2 : ∀ j, j < cur → f cur < f j := fun j hj =>
        lt_of_lt_of_le hc (hmin j hj)
      have h3 := ih cur (cur + 1) (Nat.lt_succ_self cur) hmin2 hfirst2
      have he : cur + 1 + k = cur + (k + 1) := by omega
      rw [he] at h3
      exact h3
    · rw [if_neg hc]
      have hmin2 : ∀ j, j < cur + 1 → f best ≤ f j := by
        intro j hj
        rcases (Nat.lt_succ_iff.mp hj).lt_or_eq with h | h
        · exact hmin j h
        · rw [h]; exact le_of_not_lt hc
      have h3 := ih best (cur + 1) (by omega) hmin2 hfirst
      have he : cur + 1 + k = cur + (k + 1) := by omega
      rw [he] at h3
      exact h3

/-- The index `argminQ f pop` is in range, attains the minimum, and is the first index to
do so (every earlier index is strictly worse). -/
lemma argminQ_spec (f : Vec) (pop : ℕ) (h : 0 < pop) :
    argminQ f pop < pop ∧ (∀ j, j < pop → f (argminQ f pop) ≤ f j) ∧
    (∀ j, j < argminQ f pop → f (argminQ f pop) < f j) := by
  unfold argminQ
  have h0 : ∀ j, j < 1 → f 0 ≤ f j := by
    intro j hj
    have hj0 : j = 0 := by omega
    rw [hj0]
  have h1 : ∀ j, j < 0 → f 0 < f j := fun j hj => absurd hj (Nat.not_lt_zero j)
  have h2 := argminGo_spec f (pop - 1) 0 1 Nat.zero_lt_one h0 h1
  have he : 1 + (pop - 1) = pop := by omega
  rw [he] at h2
  exact h2

/-- C3: after construction, after every `update_g_best`, and hence after
every `step` (whose last action is `update_g_best`), `g` equals
`p[argminQ f_p]`; and `argminQ` selects the first (lowest) index with the
minimal `f_p` value: it is in range, attains the minimum, and every index
below it is strictly worse. -/
theorem global_best_is_first_argmin (cfg : PsoConfig) (obj : Obj) (x0 : Mat)
    (uv : ℕ → ℕ → ℚ) (u : ℕ → ℚ) (s : PsoState) (h : 0 < cfg.pop_size) :
    ((pso_init cfg x0 obj uv).g
      = fun j => (pso_init cfg x0 obj uv).p
          (argminQ (pso_init cfg x0 obj uv).f_p cfg.pop_size) j) ∧
    ((update_g_best cfg s).g
      = fun j => (update_g_best cfg s).p
          (argminQ (update_g_best cfg s).f_p cfg.pop_size) j) ∧
    ((step cfg obj u s).g
      = fun j => (step cfg obj u s).p
          (argminQ (step cfg obj u s).f_p cfg.pop_size) j) ∧
    (∀ f : Vec, argminQ f cfg.pop_size < cfg.pop_size ∧
      (∀ i, i < cfg.pop_size → f (argminQ f cfg.pop_size) ≤ f i) ∧
      (∀ i, i < argminQ f cfg.pop_size → f (argminQ f cfg.pop_size) < f i)) :=
  ⟨rfl, rfl, rfl, fun f => argminQ_spec f cfg.pop_size h⟩

/-- Witness for C3 at `cfgA` (`pop_size = 2`) and concrete state `sA`. -/
theorem global_best_is_first_argmin_witness :
    (pso_init cfgA sA.x objA uvA).g 0
      = (pso_init cfgA sA.x objA uvA).p
          (argminQ (pso_init cfgA sA.x objA uvA).f_p cfgA.pop_size) 0 ∧
    (step cfgA objA uA sA).g 0
      = (step cfgA objA uA sA).p
          (argminQ (step cfgA objA uA sA).f_p cfgA.pop_size) 0 ∧
    argminQ sA.f_p cfgA.pop_size < cfgA.pop_size ∧
    sA.f_p (argminQ sA.f_p cfgA.pop_size) ≤ sA.f_p 1 :=
  ⟨congrFun (global_best_is_first_argmin cfgA objA sA.x uvA uA sA (by decide)).1 0,
   congrFun (global_best_is_first_argmin cfgA objA sA.x uvA uA sA (by decide)).2.2.1 0,
   ((global_best_is_first_argmin cfgA objA sA.x uvA uA sA (by decide)).2.2.2 sA.f_p).1,
   ((global_best_is_first_argmin cfgA objA sA.x uvA uA sA (by decide)).2.2.2
      sA.f_p).2.1 1 (by decide)⟩

/-- Counterexample to C4 as stated: with `dim = 2` and legitimate unit
draws (`uA 0 = 1/2`, `uA 1 = 1/3`, both in `[0,1)`), the first random
coefficient of the step differs between dimensions 0 and 1, so `r1` is not
a single scalar shared across all dimensions. -/
theorem randoms_not_scalar_per_step :
    0 ≤ uA 0 ∧ uA 0 < 1 ∧ 0 ≤ uA 1 ∧ uA 1 < 1 ∧
    (get_randoms 2 uA).1 0 ≠ (get_randoms 2 uA).1 1 := by
  decide

/-- C4 amended: `r1` and `r2` are each a vector of `dim` values — one
fresh uniform `[0,1)` draw per dimension, `r1` from the first `dim` stream
samples and `r2` from the next `dim` — shared across all particles (not
resampled per particle): two particles in identical state rows receive
identical velocity updates. -/
theorem randoms_per_dimension (cfg : PsoConfig) (obj : Obj) (u : ℕ → ℚ) (s : PsoState)
    (hu : ∀ n, n < 2 * cfg.dim → 0 ≤ u n ∧ u n < 1) :
    (∀ j, j < cfg.dim →
      (get_randoms cfg.dim u).1 j = u j ∧
      (get_randoms cfg.dim u).2 j = u (cfg.dim + j) ∧
      0 ≤ (get_randoms cfg.dim u).1 j ∧ (get_randoms cfg.dim u).1 j < 1 ∧
      0 ≤ (get_randoms cfg.dim u).2 j ∧ (get_randoms cfg.dim u).2 j < 1) ∧
    (∀ i i2 j, s.v i j = s.v i2 j → s.x i j = s.x i2 j → s.p i j = s.p i2 j →
      s.grads i j = s.grads i2 j →
      (step cfg obj u s).v i j = (step cfg obj u s).v i2 j) := by
  constructor
  · intro j hj
    obtain ⟨h1a, h1b⟩ := hu j (by omega)
    obtain ⟨h2a, h2b⟩ := hu (cfg.dim + j) (by omega)
    exact ⟨rfl, rfl, h1a, h1b, h2a, h2b⟩
  · intro i i2 j hv hx hp hg
    show step_velocity cfg s (get_randoms cfg.dim u).1 (get_randoms cfg.dim u).2 i j
      = step_velocity cfg s (get_randoms cfg.dim u).1 (get_randoms cfg.dim u).2 i2 j
    unfold step_velocity
    rw [hv, hx, hp, hg]

/-- Witness for the amended C4 at `cfgA` (`dim = 2`), stream `uA`, and the
row-constant state `sB`. -/
theorem randoms_per_dimension_witness :
    ((get_randoms cfgA.dim uA).1 1 = uA 1 ∧
      (get_randoms cfgA.dim uA).2 1 = uA (cfgA.dim + 1) ∧
      0 ≤ (get_randoms cfgA.dim uA).1 1 ∧ (get_randoms cfgA.dim uA).1 1 < 1 ∧
      0 ≤ (get_randoms cfgA.dim uA).2 1 ∧ (get_randoms cfgA.dim uA).2 1 < 1) ∧
    (step cfgA objA uA sB).v 0 1 = (step cfgA objA uA sB).v 1 1 :=
  ⟨(randoms_per_dimension cfgA objA uA sB (by decide)).1 1 (by decide),
   (randoms_per_dimension cfgA objA uA sB (by decide)).2 0 1 1 rfl rfl rfl rfl⟩

/-- Counterexample to C5 as stated: `cfgBad` has `n_iter = 0` and
`x_min >= x_max`, which the spec calls invalid, yet construction succeeds
and produces the ordinary documented instance (personal bests equal to the
swarm, empty loss history, fitness evaluated once), and `train` runs on it
without error. -/
theorem invalid_config_constructs :
    ¬ spec_configValid cfgBad ∧
    (pso_init cfgBad sB.x objA uvA).p 0 0 = sB.x 0 0 ∧
    (pso_init cfgBad sB.x objA uvA).loss_history = [] ∧
    (pso_init cfgBad sB.x objA uvA).f_p 0 = (objA (sB.x 0)).1 ∧
    train cfgBad objA usA (pso_init cfgBad sB.x objA uvA)
      = pso_init cfgBad sB.x objA uvA := by
  refine ⟨fun hval => ?_, rfl, rfl, rfl, rfl⟩
  unfold spec_configValid at hval
  exact absurd hval.2.1 (by decide)

/-- C5 amended: the constructor performs no hyperparameter validation —
for every configuration with a nonempty swarm (`0 < pop_size`; with an
empty swarm the source still performs no validation, but construction dies
inside `tf.math.argmin` on the empty `f_p`, an error path this total model
does not reproduce), valid or invalid in the spec's sense, `pso_init`
returns the ordinary documented instance: `x` is the built swarm,
`p := x`, empty loss history, `f_p` and `grads` from one fitness
evaluation of the swarm, `g := p[argmin f_p]` with the argmin a genuine
particle index, and `v` from `start_velocities`. -/
theorem pso_init_never_rejects (cfg : PsoConfig) (x0 : Mat) (obj : Obj)
    (uv : ℕ → ℕ → ℚ) (h : 0 < cfg.pop_size) :
    argminQ (fitness_fn obj x0).1 cfg.pop_size < cfg.pop_size ∧
    (pso_init cfg x0 obj uv).x = x0 ∧
    (pso_init cfg x0 obj uv).p = x0 ∧
    (pso_init cfg x0 obj uv).loss_history = [] ∧
    (pso_init cfg x0 obj uv).f_p = (fitness_fn obj x0).1 ∧
    (pso_init cfg x0 obj uv).grads = (fitness_fn obj x0).2 ∧
    (pso_init cfg x0 obj uv).g
      = (fun j => x0 (argminQ (fitness_fn obj x0).1 cfg.pop_size) j) ∧
    (pso_init cfg x0 obj uv).v = start_velocities cfg uv :=
  ⟨(argminQ_spec (fitness_fn obj x0).1 cfg.pop_size h).1,
   rfl, rfl, rfl, rfl, rfl, rfl, rfl⟩

/-- Witness for the amended C5 at `cfgBad`: two particles (so the
`0 < pop_size` guard holds) but `n_iter = 0` and `x_min >= x_max`. -/
theorem pso_init_never_rejects_witness :
    argminQ (fitness_fn objA sB.x).1 cfgBad.pop_size < cfgBad.pop_size ∧
    (pso_init cfgBad sB.x objA uvA).x = sB.x ∧
    (pso_init cfgBad sB.x objA uvA).p = sB.x ∧
    (pso_init cfgBad sB.x objA uvA).loss_history = [] ∧
    (pso_init cfgBad sB.x objA uvA).f_p = (fitness_fn objA sB.x).1 ∧
    (pso_init cfgBad sB.x objA uvA).grads = (fitness_fn objA sB.x).2 ∧
    (pso_init cfgBad sB.x objA uvA).g
      = (fun j => sB.x (argminQ (fitness_fn objA sB.x).1 cfgBad.pop_size) j) ∧
    (pso_init cfgBad sB.x objA uvA).v = start_velocities cfgBad uvA :=
  pso_init_never_rejects cfgBad sB.x objA uvA (by decide)

/-- C6: `start_velocities` is the zero matrix on cold start; otherwise
every entry is the uniform sample over the asymmetric range with lower
bound `-(x_max + x_min)` and upper bound `x_max - x_min` (the affine image
of a unit sample), and lies in that half-open range whenever the unit
sample is in `[0,1)` and the range is nonempty. -/
theorem start_velocities_spec (cfg : PsoConfig) (uv : ℕ → ℕ → ℚ) :
    (cfg.cold_start = true → ∀ i j, start_velocities cfg uv i j = 0) ∧
    (cfg.cold_start = false → ∀ i j, start_velocities cfg uv i j
      = (-(cfg.x_max + cfg.x_min))
        + uv i j * ((cfg.x_max - cfg.x_min) - (-(cfg.x_max + cfg.x_min)))) ∧
    (cfg.cold_start = false → ∀ i j, 0 ≤ uv i j → uv i j < 1 → 0 < cfg.x_max →
      -(cfg.x_max + cfg.x_min) ≤ start_velocities cfg uv i j ∧
        start_velocities cfg uv i j < cfg.x_max - cfg.x_min) := by
  refine ⟨fun h i j => ?_, fun h i j => ?_, fun h i j h0 h1 hlohi => ?_⟩
  · simp [start_velocities, h]
  · simp only [start_velocities, h, Bool.false_eq_true, if_false]
    ring
  · simp only [start_velocities, h, Bool.false_eq_true, if_false]
    have hD : 0 < (cfg.x_max - cfg.x_min) - (-cfg.x_max - cfg.x_min) := by linarith
    constructor
    · have hn := mul_nonneg h0 hD.le
      linarith
    · have hp := mul_pos (by linarith : 0 < 1 - uv i j) hD
      nlinarith

/-- Witness for C6: cold start gives zero; warm start at `cfgWarm` gives
the affine image of the unit sample `3/10`, inside the asymmetric range. -/
theorem start_velocities_spec_witness :
    start_velocities cfgA uvA 0 0 = 0 ∧
    start_velocities cfgWarm uvA 0 0
      = (-(cfgWarm.x_max + cfgWarm.x_min))
        + uvA 0 0 * ((cfgWarm.x_max - cfgWarm.x_min)
            - (-(cfgWarm.x_max + cfgWarm.x_min))) ∧
    (-(cfgWarm.x_max + cfgWarm.x_min) ≤ start_velocities cfgWarm uvA 0 0 ∧
      start_velocities cfgWarm uvA 0 0 < cfgWarm.x_max - cfgWarm.x_min) :=
  ⟨(start_velocities_spec cfgA uvA).1 rfl 0 0,
   (start_velocities_spec cfgWarm uvA).2.1 rfl 0 0,
   (start_velocities_spec cfgWarm uvA).2.2 rfl 0 0 (by decide) (by decide) (by decide)⟩

/-- One `step` appends exactly the mean of the freshly evaluated
fitnesses to the loss history. -/
lemma step_loss_history (cfg : PsoConfig) (obj : Obj) (u : ℕ → ℚ) (s : PsoState) :
    (step cfg obj u s).loss_history
      = s.loss_history ++ [meanQ cfg.pop_size (fitness_fn obj (step cfg obj u s).x).1] :=
  rfl

/-- The training loop extends the loss history by exactly one appended
entry per executed step. -/
lemma trainAux_loss_history (cfg : PsoConfig) (obj : Obj) (us : ℕ → ℕ → ℚ) :
    ∀ (k t : ℕ) (s : PsoState), ∃ l : List ℚ,
      (trainAux cfg obj us k t s).loss_history = s.loss_history ++ l ∧ l.length = k := by
  intro k
  induction k with
  | zero => intro t s; exact ⟨[], by simp [trainAux], rfl⟩
  | succ k ih =>
    intro t s
    obtain ⟨l, hl, hlen⟩ := ih (t + 1) (step cfg obj (us t) s)
    refine ⟨meanQ cfg.pop_size (fitness_fn obj (step cfg obj (us t) s).x).1 :: l,
      ?_, by simp [hlen]⟩
    show (trainAux cfg obj us k (t + 1) (step cfg obj (us t) s)).loss_history = _
    rw [hl, step_loss_history]
    simp

/-- C7: `train` appends exactly `n_iter` entries to the loss history (one
step each), the previous history survives unchanged as the initial segment
(append-only, never retroactively modified), and each step's appended entry
is the mean of the per-particle fitnesses freshly evaluated at the step's
new positions. -/
theorem train_appends_niter_means (cfg : PsoConfig) (obj : Obj) (us : ℕ → ℕ → ℚ)
    (u : ℕ → ℚ) (s : PsoState) :
    (train cfg obj us s).loss_history.length = s.loss_history.length + cfg.n_iter ∧
    (train cfg obj us s).loss_history.take s.loss_history.length = s.loss_history ∧
    (step cfg obj u s).loss_history
      = s.loss_history ++ [meanQ cfg.pop_size (fitness_fn obj (step cfg obj u s).x).1] := by
  obtain ⟨l, hl, hlen⟩ := trainAux_loss_history cfg obj us cfg.n_iter 0 s
  refine ⟨?_, ?_, step_loss_history cfg obj u s⟩
  · show (trainAux cfg obj us cfg.n_iter 0 s).loss_history.length = _
    rw [hl]
    simp [hlen]
  · show (trainAux cfg obj us cfg.n_iter 0 s).loss_history.take s.loss_history.length = _
    rw [hl]
    exact List.take_left _ _

end OPTBINN
